import Mathlib

/-!
# Verification of the arxiv-semantic-search ingestion pipeline

Shallow embedding of the crawl-to-index pipeline:
* `src/datasource/arxiv_crawler.py` — feed harvester (paging, conversion,
  deduplication, JSONL staging write),
* `src/preprocess/pdf_parser.py` and `src/preprocess/preprocess.py` —
  per-document enrichment (PDF first-page text, LLM structured extraction,
  enriched staging write),
* `src/index/build_index.py` — merge/deduplicate of enriched files and the
  vector-index build (embedding matrix, metadata table, flat index).

External effects (HTTP requests, the PDF parser, the LLM call, the language
detector, the sentence-embedding model) are passed in as explicit function
parameters; fallible calls return `Except`/`Option`, mirroring which Python
exceptions are caught where.
-/

namespace ArxivSearch

/-- A Python-dict value as it appears in the enriched-record dictionaries:
a string, `None`, or a list of strings. -/
inductive PyVal where
  | str (s : String)
  | null
  | list (xs : List String)
  deriving Repr, DecidableEq

/-- One raw harvested record, as produced by `entry_to_rawdoc`
(`arxiv_crawler.py`).  Fields that Python may hold as `None` are `Option`. -/
structure RawDoc where
  arxiv_id : String
  title : String
  abstract : String
  authors : List String
  primary_category : String
  categories : List String
  published : Option String
  updated : Option String
  url_abs : Option String
  url_pdf : Option String
  comment : Option String
  journal_ref : Option String
  doi : Option String
  crawl_date : Option String
  deriving Repr, DecidableEq

/-- One `<link>` element of a feed entry (`l.get("type")`, `l.get("href")`). -/
structure FeedLink where
  ltype : Option String
  href : Option String
  deriving Repr, DecidableEq

/-- One feedparser entry, restricted to the attributes `entry_to_rawdoc`
reads.  `authors` holds the `name` attribute of each author object (absent
name = `none`); `tags` holds each tag's `term`; `primaryCategoryTerm` is
`e.get("arxiv_primary_category").get("term")`. -/
structure Entry where
  id : Option String
  title : Option String
  summary : Option String
  authors : List (Option String)
  tags : List (Option String)
  primaryCategoryTerm : Option String
  links : List FeedLink
  published : Option String
  updated : Option String
  arxiv_comment : Option String
  arxiv_journal_ref : Option String
  arxiv_doi : Option String
  deriving Repr, DecidableEq

/-- Python `s.rsplit("/", 1)[-1]`: everything after the last `/`, or the
whole string when there is no `/`. -/
def rsplitLast (s : String) : String :=
  (s.splitOn "/").getLastD s

/-- `entry_to_rawdoc` (`arxiv_crawler.py` lines 29-68): convert one feed
entry into a raw-document record; missing optional fields become
null/empty, authors and tags keep only truthy values, `url_pdf` is the
href of the first link of type `application/pdf`. -/
def entry_to_rawdoc (e : Entry) (crawl_date : Option String) : RawDoc :=
  { arxiv_id := rsplitLast (e.id.getD "")
    title := (e.title.getD "").trim
    abstract := (e.summary.getD "").trim
    authors := e.authors.filterMap (fun n =>
      match n with
      | some s => if s = "" then none else some s
      | none => none)
    primary_category := e.primaryCategoryTerm.getD ""
    categories := e.tags.filterMap (fun t =>
      match t with
      | some s => if s = "" then none else some s
      | none => none)
    published := e.published
    updated := e.updated
    url_abs := e.id
    url_pdf := (e.links.find? (fun l => l.ltype = some "application/pdf")).bind
      (fun l => l.href)
    comment := e.arxiv_comment
    journal_ref := e.arxiv_journal_ref
    doi := e.arxiv_doi
    crawl_date := crawl_date }

/-- `_write_jsonl` (`arxiv_crawler.py` lines 70-76): serialized records
joined by `"\n"`, with no separator written after the final record.
`ser` stands for `json.dumps(·, ensure_ascii=False)`. -/
def write_jsonl {α : Type} (ser : α → String) : List α → String
  | [] => ""
  | [d] => ser d
  | d :: e :: rest => ser d ++ "\n" ++ write_jsonl ser (e :: rest)

/-- The behaviour of one paged feed request (`requests.get` + feedparser),
keyed by `start` offset and `max_results` page size: either an HTTP
response with a status code and a list of entries, or a raised exception
(timeout, connection error) from the request itself. -/
inductive FeedResp where
  | http (status : Nat) (entries : List Entry)
  | exn (msg : String)

/-- The paging loop body of `_fetch_results` (`arxiv_crawler.py` lines
91-126).  `feed start ask` is the feed's behaviour for the page request at
offset `start` asking for `ask` entries.  A non-200 status or an empty
page breaks the loop keeping `acc`; a raised request exception propagates
(the `try/finally` only closes the progress bar). -/
def fetchLoop (feed : Nat → Nat → FeedResp) (max_results : Nat)
    (fetched : Nat) (acc : List Entry) : Except String (List Entry) :=
  if h : fetched < max_results then
    match feed fetched (min 2000 (max_results - fetched)) with
    | .exn e => .error e
    | .http status entries =>
      if status ≠ 200 then .ok acc
      else if hne : entries = [] then .ok acc
      else fetchLoop feed max_results (fetched + entries.length) (acc ++ entries)
  else .ok acc
termination_by max_results - fetched
decreasing_by
  have hlen : 0 < entries.length := List.length_pos.mpr hne
  omega

/-- `_fetch_results` (`arxiv_crawler.py` lines 82-128): page through the
feed from offset 0 accumulating entries. -/
def fetch_results (feed : Nat → Nat → FeedResp) (max_results : Nat) :
    Except String (List Entry) :=
  fetchLoop feed max_results 0 []

/-- The seen-set deduplication loop of `crawl_arxiv_to_jsonl`
(`arxiv_crawler.py` lines 159-164): keep a record only when its
`arxiv_id` is truthy (non-empty) and not seen before. -/
def dedupeLoop (seen : List String) : List RawDoc → List RawDoc
  | [] => []
  | d :: rest =>
    if d.arxiv_id ≠ "" ∧ d.arxiv_id ∉ seen then
      d :: dedupeLoop (d.arxiv_id :: seen) rest
    else
      dedupeLoop seen rest

/-- `crawl_arxiv_to_jsonl` (`arxiv_crawler.py` lines 134-171): fetch,
convert every entry, de-dupe by `arxiv_id`, write the staging file, and
return the record count together with the records written.  A raised
request exception from `_fetch_results` propagates out. -/
def crawl_arxiv_to_jsonl (feed : Nat → Nat → FeedResp)
    (crawl_date : Option String) (max_results : Nat) :
    Except String (Nat × List RawDoc) :=
  match fetch_results feed max_results with
  | .error e => .error e
  | .ok entries =>
    let rawdocs := entries.map (fun e => entry_to_rawdoc e crawl_date)
    let deduped := dedupeLoop [] rawdocs
    .ok (deduped.length, deduped)

/-! ## PDF first-page extraction (`src/preprocess/pdf_parser.py`) -/

/-- Opaque handle for a downloaded PDF file on disk. -/
structure PdfFile where
  token : String
  deriving Repr, DecidableEq

/-- The external world seen by `pdf_parser.py`: the on-disk cache, the
network (`requests.get`; `none` means any request failure, which
`download_pdf` catches and turns into `None`), and PyMuPDF
(`fitz.open` + `load_page` + `get_text`; `.error` means a raised parse
exception, `.ok (pageCount, text)` a successful open). -/
structure PdfEnv where
  cached : String → Option PdfFile
  fetch : String → Option PdfFile
  openParse : PdfFile → Except String (Nat × String)

/-- Python `url.startswith("http")` (character-list test). -/
def startsWithHttp (url : String) : Bool :=
  "http".data.isPrefixOf url.data

/-- `download_pdf` (`pdf_parser.py` lines 34-58): raises `ValueError` for
a falsy or non-http URL, returns the cached path when present (and not
forced), otherwise attempts the download, returning `none` on any request
failure (caught internally). -/
def download_pdf (env : PdfEnv) (url_pdf : String) (force : Bool := false) :
    Except String (Option PdfFile) :=
  if url_pdf = "" ∨ ¬ startsWithHttp url_pdf then
    .error "A valid arXiv PDF URL is required."
  else
    match env.cached url_pdf with
    | some p => if force then .ok (env.fetch url_pdf) else .ok (some p)
    | none => .ok (env.fetch url_pdf)

/-- `extract_first_page_text_from_pdf` (`pdf_parser.py` lines 61-74):
empty text for a raised PyMuPDF exception or a zero-page document,
otherwise the stripped first-page text. -/
def extract_first_page_text_from_pdf (env : PdfEnv) (p : PdfFile) : String :=
  match env.openParse p with
  | .error _ => ""
  | .ok (pageCount, text) => if pageCount = 0 then "" else text.trim

/-- `extract_first_page_text` (`pdf_parser.py` lines 77-88): download (or
reuse cached) then parse; a failed download yields `""` gracefully, while
the `ValueError` for an invalid URL propagates. -/
def extract_first_page_text (env : PdfEnv) (url_pdf : String)
    (force_redownload : Bool := false) : Except String String :=
  match download_pdf env url_pdf force_redownload with
  | .error e => .error e
  | .ok none => .ok ""
  | .ok (some p) => .ok (extract_first_page_text_from_pdf env p)

/-! ## Document enrichment (`src/preprocess/preprocess.py`) -/

/-- Which prompt template the LLM call receives: `BASE_PROMPT`
(`prompt.txt`, used with the first-page text) or `NOMETADATA_PROMPT`
(`prompt_nometadata.txt`, used with the abstract). -/
inductive Prompt where
  | base
  | nometadata
  deriving Repr, DecidableEq

/-- A successfully parsed JSON object returned by the LLM extraction call
(`llm_extract.extract_metadata`); each field is `none` when the key is
absent, mirroring `result.get(key, default)`. -/
structure LlmOut where
  affiliations : Option (List String)
  keywords : Option (List String)
  summary : Option String
  deriving Repr, DecidableEq

/-- The external world seen by `preprocess.py`: the PDF layer, the LLM
call (`.error` = raised exception: network failure, non-JSON output, or
non-dict JSON), and `langdetect.detect` (`.error` = raised exception). -/
structure EnrichEnv where
  pdf : PdfEnv
  llm : String → Prompt → Except String LlmOut
  detect : String → Except String String

/-- `detect_language` (`preprocess.py` lines 29-33): sentinel `"unknown"`
when detection raises. -/
def detect_language (env : EnrichEnv) (text : String) : String :=
  match env.detect text with
  | .ok lang => lang
  | .error _ => "unknown"

/-- Python dict assignment `d[k] = v` on an insertion-ordered dict:
replace the value in place when the key exists, else append the pair. -/
def setKey (k : String) (v : PyVal) : List (String × PyVal) → List (String × PyVal)
  | [] => [(k, v)]
  | (k', v') :: rest => if k' = k then (k, v) :: rest else (k', v') :: setKey k v rest

/-- Python dict read `d[k]` (first binding wins; keys are unique). -/
def getKey (k : String) : List (String × PyVal) → Option PyVal
  | [] => none
  | (k', v) :: rest => if k' = k then some v else getKey k rest

/-- `None`-or-string as a `PyVal`. -/
def optStr : Option String → PyVal
  | some s => .str s
  | none => .null

/-- The base-field dictionary literal of `extract_metadata`
(`preprocess.py` lines 38-58), key order as written. -/
def baseMetadata (env : EnrichEnv) (doc : RawDoc) : List (String × PyVal) :=
  [ ("arxiv_id", .str doc.arxiv_id),
    ("title", .str doc.title.trim),
    ("abstract", .str doc.abstract.trim),
    ("authors", .list doc.authors),
    ("categories", .list doc.categories),
    ("primary_category", .str doc.primary_category),
    ("published_date", optStr doc.published),
    ("url_pdf", optStr doc.url_pdf),
    ("crawl_date", optStr doc.crawl_date),
    ("language", .str (detect_language env doc.abstract)),
    ("pdf_raw", .str ""),
    ("summary", .null),
    ("affiliations", .list []),
    ("keywords", .list []),
    ("locations", .list []) ]

/-- Step 1 of `extract_metadata` (`preprocess.py` lines 60-67): if the
record has a truthy `url_pdf`, try first-page extraction and store the
text under `pdf_raw`; a raised exception leaves the dictionary
untouched. -/
def pdfStep (env : EnrichEnv) (doc : RawDoc)
    (metadata : List (String × PyVal)) : List (String × PyVal) :=
  match doc.url_pdf with
  | none => metadata
  | some url =>
    if url = "" then metadata
    else
      match extract_first_page_text env.pdf url with
      | .ok text => setKey "pdf_raw" (.str text) metadata
      | .error _ => metadata

/-- The non-empty-`pdf_raw` branch of step 2 (`preprocess.py` lines
70-79): LLM call on the first-page text with the base prompt, filling
`affiliations`, `keywords` and `summary`; a raised exception leaves the
dictionary untouched. -/
def llmWithText (env : EnrichEnv) (metadata : List (String × PyVal))
    (pdfRaw : String) : List (String × PyVal) :=
  match env.llm pdfRaw .base with
  | .ok result =>
    setKey "summary" (.str (result.summary.getD ""))
      (setKey "keywords" (.list (result.keywords.getD []))
        (setKey "affiliations" (.list (result.affiliations.getD [])) metadata))
  | .error _ => metadata

/-- The empty-`pdf_raw` fallback branch of step 2 (`preprocess.py` lines
80-88): LLM call on `metadata["abstract"]` (the trimmed abstract) with
the no-metadata prompt, filling `keywords` and `summary`; a raised
exception leaves the dictionary untouched. -/
def llmFallback (env : EnrichEnv) (doc : RawDoc)
    (metadata : List (String × PyVal)) : List (String × PyVal) :=
  match env.llm doc.abstract.trim .nometadata with
  | .ok result =>
    setKey "summary" (.str (result.summary.getD ""))
      (setKey "keywords" (.list (result.keywords.getD [])) metadata)
  | .error _ => metadata

/-- Step 2 of `extract_metadata` (`preprocess.py` lines 69-88): read
`metadata["pdf_raw"]` back and branch on whether it is a non-empty
string — non-empty goes to the with-text LLM call, anything else to the
abstract-only fallback. -/
def llmStep (env : EnrichEnv) (doc : RawDoc)
    (metadata : List (String × PyVal)) : List (String × PyVal) :=
  match getKey "pdf_raw" metadata with
  | some (.str s) =>
    if s ≠ "" then llmWithText env metadata s else llmFallback env doc metadata
  | _ => llmFallback env doc metadata

/-- `extract_metadata` (`preprocess.py` lines 36-88): the base dictionary
followed by the PDF step and the LLM step. -/
def extract_metadata (env : EnrichEnv) (doc : RawDoc) : List (String × PyVal) :=
  llmStep env doc (pdfStep env doc (baseMetadata env doc))

/-- The enriched-staging file body written by `process_raw_file`
(`preprocess.py` lines 98-100): every record, the final one included, is
followed by a `"\n"`. -/
def enriched_file_content {α : Type} (ser : α → String) : List α → String
  | [] => ""
  | d :: rest => ser d ++ "\n" ++ enriched_file_content ser rest

/-- `process_raw_file` (`preprocess.py` lines 91-102) as a map from the
input staging file (base name, records) to the output file it writes:
the output keeps the input's base name (`PROCESSED_DIR / filepath.name`)
and holds the enriched records in input order. -/
def process_raw_file (env : EnrichEnv) (ser : List (String × PyVal) → String)
    (file : String × List RawDoc) : String × String :=
  (file.1, enriched_file_content ser (file.2.map (extract_metadata env)))

/-! ## Index build (`src/index/build_index.py`) -/

/-- One enriched record as read back from a processed JSONL file — the
fields `build_index.py` touches, typed as the enricher writes them
(`abstract` is `Option` because `build_index` guards it with
`fillna("")`). -/
structure ProcRow where
  arxiv_id : String
  title : String
  abstract : Option String
  summary : Option String
  authors : List String
  categories : List String
  primary_category : String
  affiliations : List String
  keywords : List String
  locations : List String
  language : String
  published_date : Option String
  url_pdf : Option String
  crawl_date : Option String
  pdf_raw : String
  deriving Repr, DecidableEq

/-- The metadata table row: the fixed whitelist `metadata_fields` of
`build_index` (lines 72-76). -/
structure MetaRow where
  arxiv_id : String
  title : String
  abstract : Option String
  summary : Option String
  authors : List String
  categories : List String
  affiliations : List String
  keywords : List String
  language : String
  published_date : Option String
  url_pdf : Option String
  deriving Repr, DecidableEq

/-- `df[metadata_fields]` applied to one row. -/
def toMetaRow (r : ProcRow) : MetaRow :=
  { arxiv_id := r.arxiv_id
    title := r.title
    abstract := r.abstract
    summary := r.summary
    authors := r.authors
    categories := r.categories
    affiliations := r.affiliations
    keywords := r.keywords
    language := r.language
    published_date := r.published_date
    url_pdf := r.url_pdf }

/-- The processed directory: base names paired with the records their
JSONL bodies hold, in the iteration order of `PROCESSED_DIR.glob`. -/
abbrev ProcDir := List (String × List ProcRow)

/-- Whether a base name matches the glob pattern `*.jsonl`, i.e. ends in
`.jsonl` (character-list suffix test). -/
def matchesJsonl (name : String) : Bool :=
  ".jsonl".data.isSuffixOf name.data

/-- `PROCESSED_DIR.glob("*.jsonl")` (`build_index.py` line 21): the
`.jsonl` files of the directory — note this pattern also matches
`merged.jsonl` itself. -/
def globJsonl (dir : ProcDir) : ProcDir :=
  dir.filter (fun f => matchesJsonl f.1)

/-- The file names the merge step reads as input. -/
def merge_input_files (dir : ProcDir) : List String :=
  (globJsonl dir).map Prod.fst

/-- `df.drop_duplicates(subset=["arxiv_id"])` (`build_index.py` line 33):
keep the first row bearing each `arxiv_id`, preserving row order. -/
def dropDupById (seen : List String) : List ProcRow → List ProcRow
  | [] => []
  | r :: rest =>
    if r.arxiv_id ∈ seen then dropDupById seen rest
    else r :: dropDupById (r.arxiv_id :: seen) rest

/-- `df.head(n)` for an integer `n`: the first `n` rows when `n ≥ 0`, all
rows but the last `|n|` when `n < 0`. -/
def pdHead (n : Int) (l : List ProcRow) : List ProcRow :=
  if 0 ≤ n then l.take n.toNat else l.take (l.length - (-n).toNat)

/-- `if limit: df = df.head(limit)` (`build_index.py` lines 35-36):
truncation happens only for a truthy limit — `None` and `0` leave the
table untouched. -/
def applyLimit (limit : Option Int) (l : List ProcRow) : List ProcRow :=
  match limit with
  | none => l
  | some n => if n ≠ 0 then pdHead n l else l

/-- The merged, deduplicated, optionally truncated table
(`build_index.py` lines 25-36): all records of all globbed files in file
order, first occurrence of each `arxiv_id` kept. -/
def mergedRows (dir : ProcDir) (limit : Option Int) : List ProcRow :=
  applyLimit limit (dropDupById [] ((globJsonl dir).flatMap Prod.snd))

/-- `merge_and_deduplicate` (`build_index.py` lines 16-47): raise when no
`.jsonl` file exists; otherwise compute the merged table, write it to
`merged.jsonl`, and delete every globbed file except `merged.jsonl`.
Returns the table together with the directory left behind (its non-JSONL
files survive untouched). -/
def merge_and_deduplicate (dir : ProcDir) (limit : Option Int) :
    Except String (List ProcRow × ProcDir) :=
  if globJsonl dir = [] then
    .error "No processed files found in data/processed/"
  else
    let df := mergedRows dir limit
    .ok (df, dir.filter (fun f => !(matchesJsonl f.1)) ++ [("merged.jsonl", df)])

/-- The three ordinal-aligned artifacts persisted by `build_index`:
`embeddings.npy`, `metadata.jsonl`, and the vectors inserted into the
FAISS flat index in insertion order. -/
structure IndexArtifacts (Vec : Type) where
  embeddings : List Vec
  metadata : List MetaRow
  indexVecs : List Vec

/-- `build_index` (`build_index.py` lines 50-91): merge, take each row's
abstract (`fillna("")`), encode (`encode` is the sentence-transformer,
kept abstract), persist the embedding matrix, the whitelisted metadata
table, and the index fed with the same embedding matrix. -/
def build_index {Vec : Type} (encode : String → Vec) (dir : ProcDir)
    (limit : Option Int) : Except String (IndexArtifacts Vec) :=
  match merge_and_deduplicate dir limit with
  | .error e => .error e
  | .ok (df, _) =>
    let texts := df.map (fun r => r.abstract.getD "")
    let embeddings := texts.map encode
    .ok { embeddings := embeddings
          metadata := df.map toMetaRow
          indexVecs := embeddings }

/-! ## Sample data used by witnesses -/

/-- A concrete enriched row for witness instantiations. -/
def sampleRow : ProcRow :=
  { arxiv_id := "2401.00001", title := "t", abstract := some "a"
    summary := none, authors := [], categories := [], primary_category := ""
    affiliations := [], keywords := [], locations := [], language := "en"
    published_date := none, url_pdf := none, crawl_date := none, pdf_raw := "" }

/-- A second concrete enriched row with a different identifier. -/
def sampleRow2 : ProcRow := { sampleRow with arxiv_id := "2401.00002" }

/-- A concrete processed directory holding one batch file. -/
def sampleDir : ProcDir := [("f1.jsonl", [sampleRow, sampleRow2])]

/-- A concrete harvested record for witness instantiations. -/
def sampleRawDoc : RawDoc :=
  { arxiv_id := "2401.00001", title := "T", abstract := "A", authors := []
    primary_category := "", categories := [], published := none, updated := none
    url_abs := none, url_pdf := none, comment := none, journal_ref := none
    doi := none, crawl_date := none }

/-- A duplicate of `sampleRawDoc` (same identifier, different title). -/
def sampleRawDocDup : RawDoc := { sampleRawDoc with title := "T2" }

/-! ## Lemmas about the harvester deduplication loop -/

/-- Every record surviving `dedupeLoop` has a truthy (non-empty) id. -/
theorem mem_dedupeLoop_id_ne_empty (docs : List RawDoc) :
    ∀ seen, ∀ d ∈ dedupeLoop seen docs, d.arxiv_id ≠ "" := by
  induction docs with
  | nil => intro seen d hd; simp [dedupeLoop] at hd
  | cons x rest ih =>
    intro seen d hd
    rw [dedupeLoop] at hd
    split at hd
    · rename_i hcond
      rcases List.mem_cons.mp hd with h | h
      · subst h; exact hcond.1
      · exact ih _ d h
    · exact ih _ d hd

/-- The surviving records are a sublist of the input (first-seen order). -/
theorem dedupeLoop_sublist (docs : List RawDoc) :
    ∀ seen, (dedupeLoop seen docs).Sublist docs := by
  induction docs with
  | nil => intro seen; simp [dedupeLoop]
  | cons x rest ih =>
    intro seen
    rw [dedupeLoop]
    split
    · exact (ih _).cons₂ x
    · exact (ih _).cons x

/-- Keeping only the records bearing a fixed non-empty id, `dedupeLoop`
returns nothing if the id was already seen, and otherwise exactly the
first input record bearing it. -/
theorem dedupeLoop_filter_eq (id : String) (hid : id ≠ "") (docs : List RawDoc) :
    ∀ seen, (dedupeLoop seen docs).filter (fun d => d.arxiv_id == id) =
      if id ∈ seen then [] else
        (docs.filter (fun d => d.arxiv_id == id)).take 1 := by
  induction docs with
  | nil => intro seen; simp [dedupeLoop]
  | cons x rest ih =>
    intro seen
    rw [dedupeLoop]
    by_cases hx : x.arxiv_id = id
    · subst hx
      split
      · rename_i hcond
        have hnotseen : x.arxiv_id ∉ seen := hcond.2
        rw [if_neg hnotseen]
        have h1 : (x :: dedupeLoop (x.arxiv_id :: seen) rest).filter
            (fun d => d.arxiv_id == x.arxiv_id) =
            x :: (dedupeLoop (x.arxiv_id :: seen) rest).filter
              (fun d => d.arxiv_id == x.arxiv_id) := by
          simp [List.filter_cons]
        rw [h1, ih (x.arxiv_id :: seen), if_pos (List.mem_cons_self _ _)]
        simp [List.filter_cons]
      · rename_i hcond
        push_neg at hcond
        have hseen : x.arxiv_id ∈ seen := hcond hid
        rw [ih seen, if_pos hseen, if_pos hseen]
    · split
      · have hfx : (x :: dedupeLoop (x.arxiv_id :: seen) rest).filter
            (fun d => d.arxiv_id == id) =
            (dedupeLoop (x.arxiv_id :: seen) rest).filter
              (fun d => d.arxiv_id == id) := by
          simp [List.filter_cons, hx]
        rw [hfx, ih (x.arxiv_id :: seen)]
        have hmem : (id ∈ x.arxiv_id :: seen) ↔ (id ∈ seen) := by
          simp [List.mem_cons, Ne.symm hx]
        rw [if_congr hmem rfl rfl]
        have hrhs : (x :: rest).filter (fun d => d.arxiv_id == id) =
            rest.filter (fun d => d.arxiv_id == id) := by
          simp [List.filter_cons, hx]
        rw [hrhs]
      · have hrhs : (x :: rest).filter (fun d => d.arxiv_id == id) =
            rest.filter (fun d => d.arxiv_id == id) := by
          simp [List.filter_cons, hx]
        rw [ih seen, hrhs]

/-- **C7** — For every harvested batch, deduplication by identifier keeps
exactly the first occurrence of each duplicated id and preserves
first-seen order of the surviving records: the filter of the output to
any given truthy id is the one-element prefix of the filter of the
input to that id, and the output is a sublist of the input. -/
theorem C7_dedup_keeps_first_occurrence (docs : List RawDoc) (id : String)
    (hid : id ≠ "") :
    (dedupeLoop [] docs).filter (fun d => d.arxiv_id == id) =
      ((docs.filter (fun d => d.arxiv_id == id)).take 1) ∧
    (dedupeLoop [] docs).Sublist docs := by
  refine ⟨?_, dedupeLoop_sublist docs []⟩
  have h := dedupeLoop_filter_eq id hid docs []
  simpa using h

/-- **C7 witness** — two records sharing id `2401.00001`: the deduped
batch keeps exactly the first. -/
theorem C7_dedup_keeps_first_occurrence_witness :
    ((dedupeLoop [] [sampleRawDoc, sampleRawDocDup]).filter
        (fun d => d.arxiv_id == "2401.00001") =
      (([sampleRawDoc, sampleRawDocDup].filter
        (fun d => d.arxiv_id == "2401.00001")).take 1) ∧
    (dedupeLoop [] [sampleRawDoc, sampleRawDocDup]).Sublist
      [sampleRawDoc, sampleRawDocDup]) :=
  C7_dedup_keeps_first_occurrence [sampleRawDoc, sampleRawDocDup]
    "2401.00001" (by decide)

/-- **C8** — The harvester's deduplication silently drops every record
whose identifier is empty (falsy), not only duplicates: no record with
an empty `arxiv_id` survives `dedupeLoop`, even a unique one. -/
theorem C8_empty_id_always_dropped (docs : List RawDoc) :
    (dedupeLoop [] docs).filter (fun d => d.arxiv_id == "") = [] := by
  rw [List.filter_eq_nil_iff]
  intro d hd
  have := mem_dedupeLoop_id_ne_empty docs [] d hd
  simpa using this

/-! ## C1 — ordinal alignment of the index artifacts -/

/-- **C1** — For every index build, the persisted embedding matrix, the
metadata table, and the nearest-neighbor index have the same number of
rows; the index holds exactly the embedding matrix in order; and the
vector at position `i` was generated (by the encoder) from the abstract
field of the metadata row at position `i` — ordinal position is the only
correspondence key. -/
theorem C1_ordinal_alignment {Vec : Type} (encode : String → Vec)
    (dir : ProcDir) (limit : Option Int) (arts : IndexArtifacts Vec)
    (h : build_index encode dir limit = .ok arts) :
    arts.embeddings.length = arts.metadata.length ∧
    arts.indexVecs = arts.embeddings ∧
    ∀ i : Nat, arts.embeddings[i]? =
      (arts.metadata[i]?).map (fun row => encode (row.abstract.getD "")) := by
  unfold build_index at h
  cases hm : merge_and_deduplicate dir limit with
  | error e => rw [hm] at h; exact absurd h (by simp)
  | ok p =>
    rw [hm] at h
    obtain ⟨df, dir'⟩ := p
    simp only [Except.ok.injEq] at h
    subst h
    refine ⟨by simp, rfl, ?_⟩
    intro i
    simp only [List.getElem?_map]
    cases df[i]? with
    | none => rfl
    | some r => rfl

/-- The artifacts `build_index` produces on `sampleDir` with a
string-length encoder. -/
def buildSample : IndexArtifacts Nat :=
  { embeddings := [1, 1]
    metadata := [toMetaRow sampleRow, toMetaRow sampleRow2]
    indexVecs := [1, 1] }

/-- **C1 witness** — concrete build over `sampleDir` with a string-length
encoder. -/
theorem C1_ordinal_alignment_witness :
    (buildSample.embeddings.length = buildSample.metadata.length ∧
     buildSample.indexVecs = buildSample.embeddings ∧
     ∀ i : Nat, buildSample.embeddings[i]? =
       (buildSample.metadata[i]?).map
         (fun row => String.length (row.abstract.getD ""))) :=
  C1_ordinal_alignment String.length sampleDir none buildSample (by rfl)

/-! ## C9 — a zero row limit means no limit -/

/-- **C9** — Passing a row limit of `0` to the merge step (and hence the
index builder) is treated as no limit at all: the merged table equals the
unlimited one; only a limit greater than `0` truncates to that prefix. -/
theorem C9_zero_limit_is_no_limit (dir : ProcDir) :
    mergedRows dir (some 0) = mergedRows dir none ∧
    ∀ n : Int, 0 < n →
      mergedRows dir (some n) = (mergedRows dir none).take n.toNat := by
  constructor
  · simp [mergedRows, applyLimit]
  · intro n hn
    simp [mergedRows, applyLimit, pdHead, hn.ne', hn.le]

/-- **C9 witness** — concrete directory: limit `some 1` truncates to the
first row while limit `some 0` keeps everything. -/
theorem C9_zero_limit_is_no_limit_witness :
    mergedRows sampleDir (some 1) = (mergedRows sampleDir none).take (1 : Int).toNat :=
  (C9_zero_limit_is_no_limit sampleDir).2 1 (by decide)

/-! ## C4 — staging file line format -/

/-- A concrete enrichment environment in which every external call
fails: no cache, no network, the PDF parser and the LLM raise, language
detection succeeds with `"en"`. -/
def sampleEnrichEnv : EnrichEnv :=
  { pdf := { cached := fun _ => none, fetch := fun _ => none
             openParse := fun _ => .error "fitz failed" }
    llm := fun _ _ => .error "api error"
    detect := fun _ => .ok "en" }

/-- `String.intercalate.go` pulls a left factor of its accumulator out. -/
theorem intercalate_go_append (s : String) : ∀ (as : List String) (a b : String),
    String.intercalate.go (a ++ b) s as = a ++ String.intercalate.go b s as := by
  intro as
  induction as with
  | nil => intro a b; simp [String.intercalate.go]
  | cons x xs ih =>
    intro a b
    show String.intercalate.go ((a ++ b) ++ s ++ x) s xs = _
    rw [String.append_assoc, String.append_assoc, ih a (b ++ (s ++ x))]
    show a ++ String.intercalate.go (b ++ (s ++ x)) s xs =
      a ++ String.intercalate.go b s (x :: xs)
    rw [← String.append_assoc b s x]
    rfl

/-- The harvester staging body is the serialized records joined by
single newlines — newline-delimited JSON, one record per line. -/
theorem write_jsonl_eq_intercalate {α : Type} (ser : α → String)
    (l : List α) : write_jsonl ser l = String.intercalate "\n" (l.map ser) := by
  induction l with
  | nil => rfl
  | cons d rest ih =>
    cases rest with
    | nil => rfl
    | cons e rest2 =>
      rw [write_jsonl, ih]
      show ser d ++ "\n" ++ String.intercalate.go (ser e) "\n" (List.map ser rest2) =
        String.intercalate.go (ser d ++ "\n" ++ ser e) "\n" (List.map ser rest2)
      rw [String.append_assoc (ser d) "\n" (ser e),
        intercalate_go_append "\n" (List.map ser rest2) (ser d) ("\n" ++ ser e),
        intercalate_go_append "\n" (List.map ser rest2) "\n" (ser e),
        String.append_assoc]

/-- The harvester staging body is nonempty and does not end in a newline
when every serialized record is nonempty and newline-free. -/
theorem write_jsonl_no_trailing_newline {α : Type} (ser : α → String)
    (hser : ∀ d, ser d ≠ "" ∧ '\n' ∉ (ser d).data) :
    ∀ l : List α, l ≠ [] →
      (write_jsonl ser l).data ≠ [] ∧
      (write_jsonl ser l).data.getLast? ≠ some '\n' := by
  intro l
  induction l with
  | nil => intro h; exact absurd rfl h
  | cons d rest ih =>
    intro _
    cases rest with
    | nil =>
      refine ⟨?_, ?_⟩
      · intro hdata
        exact (hser d).1 (by rw [write_jsonl] at hdata; exact String.ext hdata)
      · intro hlast
        rw [write_jsonl] at hlast
        obtain ⟨hgl, hx⟩ :=
          List.mem_getLast?_eq_getLast (Option.mem_def.mpr hlast)
        exact (hser d).2 (hx ▸ List.getLast_mem hgl)
    | cons e rest2 =>
      obtain ⟨hne, hlast⟩ := ih (by simp)
      rw [write_jsonl]
      constructor
      · intro hdata
        rw [String.data_append, String.data_append] at hdata
        simp only [List.append_eq_nil] at hdata
        exact hne hdata.2
      · intro h
        rw [String.data_append, String.data_append,
          List.getLast?_append_of_ne_nil _ hne] at h
        exact hlast h

/-- For a nonempty record list, the enriched staging body equals the
harvester-style body followed by one extra newline. -/
theorem enriched_eq_write_jsonl_append {α : Type} (ser : α → String) :
    ∀ l : List α, l ≠ [] →
      enriched_file_content ser l = write_jsonl ser l ++ "\n" := by
  intro l
  induction l with
  | nil => intro h; exact absurd rfl h
  | cons d rest ih =>
    intro _
    cases rest with
    | nil =>
      show ser d ++ "\n" ++ "" = ser d ++ "\n"
      rw [String.append_empty]
    | cons e rest2 =>
      show ser d ++ "\n" ++ enriched_file_content ser (e :: rest2) = _
      rw [ih (by simp), write_jsonl, String.append_assoc, String.append_assoc,
        String.append_assoc]

/-- **C4 counterexample** — the claim requires no trailing newline after
the final record of every staging file, the enricher output included;
but on a one-record input with all external calls failing, the file the
enricher writes ends in a newline character. -/
theorem C4_counterexample :
    (process_raw_file sampleEnrichEnv (fun _ => "r")
      ("20240101_cs_AI.jsonl", [sampleRawDoc])).2.data.getLast? = some '\n' := by
  decide

/-- **C4 (amended)** — staging files are newline-delimited with one
serialized record per line and the enricher output preserves the base
name of its input file; the harvester's raw staging body has no trailing
newline after the final record, but the enricher's output body ends
every record — the final one included — with a newline. -/
theorem C4_staging_file_format {α : Type} (ser : α → String)
    (docs : List α) (hne : docs ≠ [])
    (hser : ∀ d, ser d ≠ "" ∧ '\n' ∉ (ser d).data) :
    write_jsonl ser docs = String.intercalate "\n" (docs.map ser) ∧
    (write_jsonl ser docs).data.getLast? ≠ some '\n' ∧
    enriched_file_content ser docs = write_jsonl ser docs ++ "\n" ∧
    (enriched_file_content ser docs).data.getLast? = some '\n' ∧
    ∀ (env : EnrichEnv) (mser : List (String × PyVal) → String)
      (name : String) (rds : List RawDoc),
      (process_raw_file env mser (name, rds)).1 = name := by
  refine ⟨write_jsonl_eq_intercalate ser docs,
    (write_jsonl_no_trailing_newline ser hser docs hne).2, ?_, ?_, ?_⟩
  · exact enriched_eq_write_jsonl_append ser docs hne
  · rw [enriched_eq_write_jsonl_append ser docs hne, String.data_append]
    have h : ("\n" : String).data = ['\n'] := rfl
    rw [h, List.getLast?_append_of_ne_nil _
      (show (['\n'] : List Char) ≠ [] by simp)]
    rfl
  · intro env mser name rds; rfl

/-- **C4 witness** — concrete two-record instantiation with the constant
serializer `"r"`. -/
theorem C4_staging_file_format_witness :
    (write_jsonl (fun _ : Unit => "r") [(), ()] =
      String.intercalate "\n" ([(), ()].map (fun _ : Unit => "r")) ∧
    (write_jsonl (fun _ : Unit => "r") [(), ()]).data.getLast? ≠ some '\n' ∧
    enriched_file_content (fun _ : Unit => "r") [(), ()] =
      write_jsonl (fun _ : Unit => "r") [(), ()] ++ "\n" ∧
    (enriched_file_content (fun _ : Unit => "r") [(), ()]).data.getLast? = some '\n' ∧
    ∀ (env : EnrichEnv) (mser : List (String × PyVal) → String)
      (name : String) (rds : List RawDoc),
      (process_raw_file env mser (name, rds)).1 = name) :=
  C4_staging_file_format (fun _ : Unit => "r") [(), ()] (by decide)
    (fun _ => ⟨by change ("r" : String) ≠ ""; decide,
      by change '\n' ∉ ("r" : String).data; decide⟩)

/-! ## C10 — fixed enriched-record key set -/

/-- The key set of every enriched record, in the insertion order of
`extract_metadata`. -/
def enrichedKeys : List String :=
  ["arxiv_id", "title", "abstract", "authors", "categories",
   "primary_category", "published_date", "url_pdf", "crawl_date",
   "language", "pdf_raw", "summary", "affiliations", "keywords",
   "locations"]

/-- Dict assignment to a key already present leaves the key list
unchanged. -/
theorem setKey_map_fst (k : String) (v : PyVal) :
    ∀ l : List (String × PyVal), k ∈ l.map Prod.fst →
      (setKey k v l).map Prod.fst = l.map Prod.fst := by
  intro l
  induction l with
  | nil => intro h; simp at h
  | cons p rest ih =>
    intro h
    obtain ⟨k', v'⟩ := p
    rw [setKey]
    by_cases hk : k' = k
    · subst hk; simp
    · rw [if_neg hk]
      simp only [List.map_cons, List.cons.injEq, true_and]
      apply ih
      simp only [List.map_cons, List.mem_cons] at h
      exact h.resolve_left (fun he => hk he.symm)

/-- Dict assignment to one key does not change the value read at a
different key. -/
theorem getKey_setKey_ne (k k' : String) (v : PyVal) (hne : k ≠ k') :
    ∀ l : List (String × PyVal), getKey k (setKey k' v l) = getKey k l := by
  intro l
  induction l with
  | nil => simp [setKey, getKey, Ne.symm hne]
  | cons p rest ih =>
    obtain ⟨k2, v2⟩ := p
    rw [setKey]
    by_cases h2 : k2 = k'
    · subst h2
      rw [if_pos rfl, getKey, getKey, if_neg (fun he => hne he.symm),
        if_neg (fun he => hne he.symm)]
    · rw [if_neg h2, getKey, getKey]
      by_cases h3 : k2 = k
      · rw [if_pos h3, if_pos h3]
      · rw [if_neg h3, if_neg h3, ih]

/-- The LLM step only assigns to `summary`, `keywords` and
`affiliations`, so it preserves the key list and the `locations`
value of any dictionary with the enriched key set. -/
theorem llmStep_preserves (env : EnrichEnv) (doc : RawDoc)
    (m : List (String × PyVal)) (hkeys : m.map Prod.fst = enrichedKeys) :
    (llmStep env doc m).map Prod.fst = enrichedKeys ∧
    getKey "locations" (llmStep env doc m) = getKey "locations" m := by
  have hsum : "summary" ∈ m.map Prod.fst := by rw [hkeys]; decide
  have hkey : "keywords" ∈ m.map Prod.fst := by rw [hkeys]; decide
  have haff : "affiliations" ∈ m.map Prod.fst := by rw [hkeys]; decide
  have chain3 : ∀ v1 v2 v3 : PyVal,
      (setKey "summary" v1 (setKey "keywords" v2
        (setKey "affiliations" v3 m))).map Prod.fst = enrichedKeys ∧
      getKey "locations" (setKey "summary" v1 (setKey "keywords" v2
        (setKey "affiliations" v3 m))) = getKey "locations" m := by
    intro v1 v2 v3
    have k3 : (setKey "affiliations" v3 m).map Prod.fst = enrichedKeys := by
      rw [setKey_map_fst _ _ _ haff]; exact hkeys
    have k2 : (setKey "keywords" v2 (setKey "affiliations" v3 m)).map
        Prod.fst = enrichedKeys := by
      rw [setKey_map_fst _ _ _ (by rw [k3]; decide)]; exact k3
    constructor
    · rw [setKey_map_fst _ _ _ (by rw [k2]; decide)]; exact k2
    · rw [getKey_setKey_ne _ _ _ (by decide), getKey_setKey_ne _ _ _ (by decide),
        getKey_setKey_ne _ _ _ (by decide)]
  have chain2 : ∀ v1 v2 : PyVal,
      (setKey "summary" v1 (setKey "keywords" v2 m)).map Prod.fst =
        enrichedKeys ∧
      getKey "locations" (setKey "summary" v1 (setKey "keywords" v2 m)) =
        getKey "locations" m := by
    intro v1 v2
    have k2 : (setKey "keywords" v2 m).map Prod.fst = enrichedKeys := by
      rw [setKey_map_fst _ _ _ hkey]; exact hkeys
    constructor
    · rw [setKey_map_fst _ _ _ (by rw [k2]; decide)]; exact k2
    · rw [getKey_setKey_ne _ _ _ (by decide), getKey_setKey_ne _ _ _ (by decide)]
  have hwt : ∀ s, (llmWithText env m s).map Prod.fst = enrichedKeys ∧
      getKey "locations" (llmWithText env m s) = getKey "locations" m := by
    intro s
    unfold llmWithText
    split
    · exact chain3 _ _ _
    · exact ⟨hkeys, rfl⟩
  have hfb : (llmFallback env doc m).map Prod.fst = enrichedKeys ∧
      getKey "locations" (llmFallback env doc m) = getKey "locations" m := by
    unfold llmFallback
    split
    · exact chain2 _ _
    · exact ⟨hkeys, rfl⟩
  unfold llmStep
  repeat' split
  all_goals first
    | exact hwt _
    | exact hfb

/-- The PDF step only assigns to `pdf_raw`, so it preserves the key list
and the `locations` value of any dictionary with the enriched key set. -/
theorem pdfStep_preserves (env : EnrichEnv) (doc : RawDoc)
    (m : List (String × PyVal)) (hkeys : m.map Prod.fst = enrichedKeys) :
    (pdfStep env doc m).map Prod.fst = enrichedKeys ∧
    getKey "locations" (pdfStep env doc m) = getKey "locations" m := by
  have hpdf : "pdf_raw" ∈ m.map Prod.fst := by rw [hkeys]; decide
  unfold pdfStep
  split
  · exact ⟨hkeys, rfl⟩
  · split
    · exact ⟨hkeys, rfl⟩
    · split
      · exact ⟨by rw [setKey_map_fst _ _ _ hpdf]; exact hkeys,
          getKey_setKey_ne _ _ _ (by decide) m⟩
      · exact ⟨hkeys, rfl⟩

/-- **C10** — Every record produced by enrichment has exactly the fixed
key set (`arxiv_id`, `title`, `abstract`, `authors`, `categories`,
`primary_category`, `published_date`, `url_pdf`, `crawl_date`,
`language`, `pdf_raw`, `summary`, `affiliations`, `keywords`,
`locations`) regardless of which sub-steps fail, and the `locations`
field is always the empty sequence. -/
theorem C10_fixed_key_set (env : EnrichEnv) (doc : RawDoc) :
    (extract_metadata env doc).map Prod.fst = enrichedKeys ∧
    getKey "locations" (extract_metadata env doc) = some (.list []) := by
  have hbase : (baseMetadata env doc).map Prod.fst = enrichedKeys := rfl
  have hbloc : getKey "locations" (baseMetadata env doc) = some (.list []) := rfl
  obtain ⟨h1, h2⟩ := pdfStep_preserves env doc (baseMetadata env doc) hbase
  obtain ⟨h3, h4⟩ := llmStep_preserves env doc _ h1
  exact ⟨h3, by rw [extract_metadata, h4, h2, hbloc]⟩

/-! ## C6 — graceful degradation on PDF failure -/

/-- A failed download or a failed parse makes first-page extraction
return empty text, not an exception. -/
theorem extract_first_page_text_empty_on_failure (penv : PdfEnv) (url : String)
    (hfail : download_pdf penv url = .ok none ∨
      ∃ p e, download_pdf penv url = .ok (some p) ∧ penv.openParse p = .error e) :
    extract_first_page_text penv url = .ok "" := by
  rcases hfail with hd | ⟨p, e, hd, hp⟩
  · rw [extract_first_page_text, hd]
  · rw [extract_first_page_text, hd]
    show Except.ok (extract_first_page_text_from_pdf penv p) = Except.ok ""
    unfold extract_first_page_text_from_pdf
    rw [hp]

/-- A record whose PDF step failed still reaches the fallback LLM branch
with `pdf_raw = ""`. -/
theorem extract_metadata_pdf_failed (env : EnrichEnv) (doc : RawDoc)
    (url : String) (hurl : doc.url_pdf = some url)
    (hext : extract_first_page_text env.pdf url = .ok "") :
    extract_metadata env doc =
      llmFallback env doc (setKey "pdf_raw" (.str "")
        (baseMetadata env doc)) ∨
    extract_metadata env doc = llmFallback env doc (baseMetadata env doc) := by
  by_cases hu0 : url = ""
  · right
    simp only [extract_metadata, pdfStep, hurl, if_pos hu0]
    rfl
  · left
    simp only [extract_metadata, pdfStep, hurl, if_neg hu0, hext]
    rfl

/-- **C6** — For every input document whose PDF download or parse fails,
enrichment does not raise (it is a total function into dictionaries):
the enriched output still carries the document (same `arxiv_id`), its
`pdf_raw` field is the empty string, and its `summary` is either `None`
or a summary obtained from the fallback (abstract-only, no-metadata)
prompt; and the failed first-page extraction itself yields empty text
rather than an exception. -/
theorem C6_graceful_degradation (env : EnrichEnv) (doc : RawDoc)
    (url : String) (hurl : doc.url_pdf = some url)
    (hfail : download_pdf env.pdf url = .ok none ∨
      ∃ p e, download_pdf env.pdf url = .ok (some p) ∧
        env.pdf.openParse p = .error e) :
    extract_first_page_text env.pdf url = .ok "" ∧
    getKey "arxiv_id" (extract_metadata env doc) = some (.str doc.arxiv_id) ∧
    getKey "pdf_raw" (extract_metadata env doc) = some (.str "") ∧
    (getKey "summary" (extract_metadata env doc) = some .null ∨
      ∃ r, env.llm doc.abstract.trim .nometadata = .ok r ∧
        getKey "summary" (extract_metadata env doc) =
          some (.str (r.summary.getD ""))) := by
  have hext := extract_first_page_text_empty_on_failure env.pdf url hfail
  refine ⟨hext, ?_⟩
  rcases extract_metadata_pdf_failed env doc url hurl hext with hm | hm
  all_goals
    rw [hm]
    unfold llmFallback
    cases hl : env.llm doc.abstract.trim .nometadata with
    | ok r => exact ⟨rfl, rfl, Or.inr ⟨r, rfl, rfl⟩⟩
    | error e => exact ⟨rfl, rfl, Or.inl rfl⟩

/-- A concrete harvested record carrying a PDF URL whose download will
fail in `sampleEnrichEnv`. -/
def samplePdfDoc : RawDoc := { sampleRawDoc with url_pdf := some "http://a/x.pdf" }

/-- **C6 witness** — in the environment where every external call fails,
the document with a PDF URL still comes out with `pdf_raw = ""` and a
`None` summary. -/
theorem C6_graceful_degradation_witness :
    (extract_first_page_text sampleEnrichEnv.pdf "http://a/x.pdf" = .ok "" ∧
    getKey "arxiv_id" (extract_metadata sampleEnrichEnv samplePdfDoc) =
      some (.str samplePdfDoc.arxiv_id) ∧
    getKey "pdf_raw" (extract_metadata sampleEnrichEnv samplePdfDoc) =
      some (.str "") ∧
    (getKey "summary" (extract_metadata sampleEnrichEnv samplePdfDoc) =
        some .null ∨
      ∃ r, sampleEnrichEnv.llm samplePdfDoc.abstract.trim .nometadata =
          .ok r ∧
        getKey "summary" (extract_metadata sampleEnrichEnv samplePdfDoc) =
          some (.str (r.summary.getD "")))) :=
  C6_graceful_degradation sampleEnrichEnv samplePdfDoc "http://a/x.pdf"
    rfl (Or.inl (by rfl))

/-! ## C2 — the snapshot is (not) excluded from re-merge input -/

/-- `drop_duplicates` leaves pairwise-distinct identifiers, none of them
already seen. -/
theorem dropDupById_spec : ∀ (l : List ProcRow) (seen : List String),
    ((dropDupById seen l).map (fun r => r.arxiv_id)).Nodup ∧
    ∀ r ∈ dropDupById seen l, r.arxiv_id ∉ seen := by
  intro l
  induction l with
  | nil => intro seen; simp [dropDupById]
  | cons x rest ih =>
    intro seen
    rw [dropDupById]
    split
    · obtain ⟨h1, h2⟩ := ih seen
      exact ⟨h1, h2⟩
    · rename_i hx
      obtain ⟨h1, h2⟩ := ih (x.arxiv_id :: seen)
      refine ⟨?_, ?_⟩
      · rw [List.map_cons, List.nodup_cons]
        refine ⟨?_, h1⟩
        intro hmem
        obtain ⟨r, hr, hrid⟩ := List.mem_map.mp hmem
        exact (h2 r hr) (hrid ▸ List.mem_cons_self _ _)
      · intro r hr
        rcases List.mem_cons.mp hr with h | h
        · subst h; exact hx
        · exact fun hs => (h2 r h) (List.mem_cons_of_mem _ hs)

/-- The truncation step keeps a (order-preserving) sublist of the rows. -/
theorem applyLimit_sublist (limit : Option Int) (l : List ProcRow) :
    (applyLimit limit l).Sublist l := by
  cases limit with
  | none => exact List.Sublist.refl l
  | some n =>
    rw [applyLimit]
    split
    · rw [pdHead]; split <;> exact List.take_sublist _ _
    · exact List.Sublist.refl l

/-- The merged table never holds the same identifier twice. -/
theorem mergedRows_id_nodup (dir : ProcDir) (limit : Option Int) :
    ((mergedRows dir limit).map (fun r => r.arxiv_id)).Nodup := by
  have h1 := (dropDupById_spec ((globJsonl dir).flatMap Prod.snd) []).1
  exact h1.sublist ((applyLimit_sublist limit _).map _)

/-- **C2 counterexample** — directory state left by a merge run
interrupted mid-delete: the snapshot `merged.jsonl` plus one remaining
batch file.  Contrary to the claim, the set of files the re-run reads as
merge input does contain the snapshot itself (`glob("*.jsonl")` matches
it). -/
theorem C2_counterexample :
    "merged.jsonl" ∈ merge_input_files
      [("merged.jsonl", [sampleRow]), ("f1.jsonl", [sampleRow2])] := by
  decide

/-- **C2 (amended)** — The merge step does not exclude the canonical
snapshot from its own re-merge input: whenever `merged.jsonl` is present
in the processed directory, it is among the files read as merge input.
Data already captured in the snapshot is nonetheless not duplicated in
the merged output, because deduplication keeps at most one row per
identifier. -/
theorem C2_snapshot_in_remerge_input (dir : ProcDir) (limit : Option Int)
    (rows : List ProcRow) (hmem : ("merged.jsonl", rows) ∈ dir) :
    "merged.jsonl" ∈ merge_input_files dir ∧
    ∀ df dir2, merge_and_deduplicate dir limit = .ok (df, dir2) →
      (df.map (fun r => r.arxiv_id)).Nodup := by
  constructor
  · exact List.mem_map.mpr ⟨("merged.jsonl", rows),
      List.mem_filter.mpr ⟨hmem,
        by change matchesJsonl "merged.jsonl" = true; decide⟩, rfl⟩
  · intro df dir2 h
    rw [merge_and_deduplicate] at h
    split at h
    · exact absurd h (by simp)
    · simp only [Except.ok.injEq, Prod.mk.injEq] at h
      rw [← h.1]
      exact mergedRows_id_nodup dir limit

/-- **C2 witness** — the interrupted-run directory instantiation. -/
theorem C2_snapshot_in_remerge_input_witness :
    ("merged.jsonl" ∈ merge_input_files
      [("merged.jsonl", [sampleRow]), ("f1.jsonl", [sampleRow2])] ∧
    ∀ df dir2, merge_and_deduplicate
        [("merged.jsonl", [sampleRow]), ("f1.jsonl", [sampleRow2])] none =
        .ok (df, dir2) →
      (df.map (fun r => r.arxiv_id)).Nodup) :=
  C2_snapshot_in_remerge_input
    [("merged.jsonl", [sampleRow]), ("f1.jsonl", [sampleRow2])] none
    [sampleRow] (List.mem_cons_self _ _)

/-! ## C5 — merge idempotence -/

/-- A list with pairwise-distinct, unseen identifiers passes
`drop_duplicates` unchanged. -/
theorem dropDupById_eq_self : ∀ (l : List ProcRow) (seen : List String),
    ((l.map (fun r => r.arxiv_id)).Nodup) →
    (∀ r ∈ l, r.arxiv_id ∉ seen) →
    dropDupById seen l = l := by
  intro l
  induction l with
  | nil => intro seen _ _; rfl
  | cons x rest ih =>
    intro seen hnd hseen
    rw [List.map_cons, List.nodup_cons] at hnd
    rw [dropDupById, if_neg (hseen x (List.mem_cons_self _ _))]
    congr 1
    apply ih _ hnd.2
    intro r hr
    intro hmem
    rcases List.mem_cons.mp hmem with h | h
    · exact hnd.1 (h ▸ List.mem_map.mpr ⟨r, hr, rfl⟩)
    · exact hseen r (List.mem_cons_of_mem _ hr) h

/-- Truncating to a non-negative limit is idempotent. -/
theorem applyLimit_idem (limit : Option Int)
    (hlim : limit = none ∨ ∃ n : Int, limit = some n ∧ 0 ≤ n)
    (l : List ProcRow) :
    applyLimit limit (applyLimit limit l) = applyLimit limit l := by
  rcases hlim with h | ⟨n, h, hn⟩
  · subst h; rfl
  · subst h
    rw [applyLimit, applyLimit]
    by_cases h0 : n = 0
    · rw [if_neg (by simp [h0]), if_neg (by simp [h0])]
    · rw [if_pos h0, if_pos h0, pdHead, pdHead, if_pos hn, if_pos hn,
        List.take_take, Nat.min_self]

/-- After a completed merge run, globbing the directory it left behind
finds exactly the snapshot. -/
theorem globJsonl_after_merge (dir : ProcDir) (df : List ProcRow) :
    globJsonl (dir.filter (fun f => !(matchesJsonl f.1)) ++
      [("merged.jsonl", df)]) = [("merged.jsonl", df)] := by
  rw [globJsonl, List.filter_append, List.filter_filter]
  have h1 : (dir.filter
      (fun f => matchesJsonl f.1 && !(matchesJsonl f.1))) = [] := by
    have : ∀ f : String × List ProcRow,
        (matchesJsonl f.1 && !(matchesJsonl f.1)) = false := by
      intro f; cases matchesJsonl f.1 <;> rfl
    simp [this]
  rw [h1]
  rfl

/-- **C5** — Running merge a second time on the inputs left by a
completed first run (with the same, non-negative limit) produces a
merged snapshot identical to the first run's: the same rows in the same
order, hence the same persisted file content. -/
theorem C5_merge_idempotent (dir : ProcDir) (limit : Option Int)
    (hlim : limit = none ∨ ∃ n : Int, limit = some n ∧ 0 ≤ n)
    (df : List ProcRow) (dir2 : ProcDir)
    (h : merge_and_deduplicate dir limit = .ok (df, dir2)) :
    ∃ dir3, merge_and_deduplicate dir2 limit = .ok (df, dir3) := by
  rw [merge_and_deduplicate] at h
  split at h
  · exact absurd h (by simp)
  · simp only [Except.ok.injEq, Prod.mk.injEq] at h
    obtain ⟨hdf, hdir2⟩ := h
    subst hdf
    have hglob : globJsonl dir2 = [("merged.jsonl", mergedRows dir limit)] := by
      rw [← hdir2]; exact globJsonl_after_merge dir _
    have hnodup := mergedRows_id_nodup dir limit
    have hrows : mergedRows dir2 limit = mergedRows dir limit := by
      rw [mergedRows, hglob]
      have hflat : (([("merged.jsonl", mergedRows dir limit)] : ProcDir).flatMap
          Prod.snd) = mergedRows dir limit := by simp
      rw [hflat, dropDupById_eq_self _ [] hnodup (by simp)]
      exact applyLimit_idem limit hlim
        (dropDupById [] ((globJsonl dir).flatMap Prod.snd))
    refine ⟨dir2.filter (fun f => !(matchesJsonl f.1)) ++
      [("merged.jsonl", mergedRows dir limit)], ?_⟩
    rw [merge_and_deduplicate, if_neg (by rw [hglob]; simp), hrows]

/-- **C5 witness** — a second merge over the directory left by merging
`sampleDir` reproduces the same snapshot. -/
theorem C5_merge_idempotent_witness :
    ∃ dir3, merge_and_deduplicate [("merged.jsonl", [sampleRow, sampleRow2])]
      none = .ok ([sampleRow, sampleRow2], dir3) :=
  C5_merge_idempotent sampleDir none (Or.inl rfl)
    [sampleRow, sampleRow2] [("merged.jsonl", [sampleRow, sampleRow2])] (by rfl)

/-! ## C3 — harvester paging error handling -/

/-- Over a feed that always answers with an HTTP response (any status,
any page), the paging loop always terminates normally. -/
theorem fetchLoop_never_raises (feed : Nat → Nat → FeedResp)
    (hok : ∀ s a, ∃ st es, feed s a = FeedResp.http st es)
    (max_results : Nat) :
    ∀ n fetched acc, max_results - fetched ≤ n →
      ∃ l, fetchLoop feed max_results fetched acc = .ok l := by
  intro n
  induction n with
  | zero =>
    intro fetched acc hn
    rw [fetchLoop, dif_neg (by omega)]
    exact ⟨acc, rfl⟩
  | succ n ih =>
    intro fetched acc hn
    rw [fetchLoop]
    by_cases hlt : fetched < max_results
    · rw [dif_pos hlt]
      obtain ⟨st, es, hfeed⟩ := hok fetched (min 2000 (max_results - fetched))
      simp only [hfeed]
      by_cases hst : st ≠ 200
      · rw [if_pos hst]; exact ⟨acc, rfl⟩
      · rw [if_neg hst]
        by_cases hes : es = []
        · rw [dif_pos hes]; exact ⟨acc, rfl⟩
        · rw [dif_neg hes]
          apply ih
          have : 0 < es.length := List.length_pos.mpr hes
          omega
    · rw [dif_neg hlt]; exact ⟨acc, rfl⟩

/-- **C3 counterexample** — the claim says no exception from the paging
loop ever propagates past the harvester boundary, for every feed
behaviour; but when the page request itself raises (e.g. a connection
timeout from `requests.get`, which the `try/finally` does not catch),
`crawl_arxiv_to_jsonl` propagates it instead of returning normally. -/
theorem C3_counterexample :
    crawl_arxiv_to_jsonl (fun _ _ => FeedResp.exn "connection timeout")
      none 1 = .error "connection timeout" := by
  rw [crawl_arxiv_to_jsonl]
  have h : fetch_results (fun _ _ => FeedResp.exn "connection timeout") 1 =
      .error "connection timeout" := by
    rw [fetch_results, fetchLoop, dif_pos (by omega)]
  rw [h]

/-- **C3 (amended)** — When a paged feed request returns a non-success
HTTP status or a page with zero entries, the harvester stops paging and
keeps the entries collected so far, and `crawl_arxiv_to_jsonl` returns
normally with the partial result for every feed behaviour that yields
HTTP responses; only an exception raised by the page request itself
(timeout, connection failure) propagates past the harvester boundary. -/
theorem C3_partial_results_kept (feed : Nat → Nat → FeedResp)
    (cd : Option String) (max_results : Nat)
    (hok : ∀ s a, ∃ st es, feed s a = FeedResp.http st es) :
    (∃ r, crawl_arxiv_to_jsonl feed cd max_results = .ok r) ∧
    (∀ fetched acc st es, fetched < max_results →
      feed fetched (min 2000 (max_results - fetched)) = .http st es →
      ((st ≠ 200 → fetchLoop feed max_results fetched acc = .ok acc) ∧
       (es = [] → fetchLoop feed max_results fetched acc = .ok acc))) := by
  constructor
  · obtain ⟨l, hl⟩ := fetchLoop_never_raises feed hok max_results
      max_results 0 [] (by omega)
    refine ⟨((dedupeLoop [] (l.map (fun e => entry_to_rawdoc e cd))).length,
      dedupeLoop [] (l.map (fun e => entry_to_rawdoc e cd))), ?_⟩
    rw [crawl_arxiv_to_jsonl]
    have h : fetch_results feed max_results = .ok l := hl
    rw [h]
  · intro fetched acc st es hlt hfeed
    constructor
    · intro hst
      rw [fetchLoop, dif_pos hlt]
      simp only [hfeed]
      rw [if_pos hst]
    · intro hes
      rw [fetchLoop, dif_pos hlt]
      simp only [hfeed]
      by_cases hst : st ≠ 200
      · rw [if_pos hst]
      · rw [if_neg hst, dif_pos hes]

/-- **C3 witness** — a feed whose first page is empty with status 200:
the crawl returns normally and the loop stops on the empty page. -/
theorem C3_partial_results_kept_witness :
    ((∃ r, crawl_arxiv_to_jsonl (fun _ _ => FeedResp.http 200 []) none 5 =
      .ok r) ∧
    (∀ fetched acc st es, fetched < 5 →
      (fun _ _ => FeedResp.http 200 ([] : List Entry)) fetched
        (min 2000 (5 - fetched)) = .http st es →
      ((st ≠ 200 → fetchLoop (fun _ _ => FeedResp.http 200 []) 5 fetched acc =
          .ok acc) ∧
       (es = [] → fetchLoop (fun _ _ => FeedResp.http 200 []) 5 fetched acc =
          .ok acc)))) :=
  C3_partial_results_kept (fun _ _ => FeedResp.http 200 []) none 5
    (fun _ _ => ⟨200, [], rfl⟩)

end ArxivSearch
